import Mathlib

/-!
Verification of the dexter agent core: a shallow embedding in Lean 4 of the
agent execution loop (`Agent.run` / `runAgent`), the LLM retry helper
(`withRetry` / `callLlm`), the finance data tools (Alpha Vantage, Yahoo), and
the `financial_search` meta-router, together with theorems settling the
specified behavioural claims.

External effects (the language model, remote HTTP fetches, the abort signal)
are modelled as explicit oracles passed to the embedded functions; wall-clock
timestamps and token usage are omitted, as no claim concerns them.
-/

namespace Dexter

/-- A JSON-like value, the currency of tool arguments and tool results. -/
inductive JsonVal where
  | null
  | bool (b : Bool)
  | num (n : Int)
  | str (s : String)
  | arr (xs : List JsonVal)
  | obj (fields : List (String × JsonVal))


/-- Look up a field of a JSON object given as an association list
(first binding wins, as in a parsed JSON object). -/
def jsonLookup (fields : List (String × JsonVal)) (k : String) : Option JsonVal :=
  match fields with
  | [] => none
  | (k0, v) :: rest => if k0 = k then some v else jsonLookup rest k

/-- JavaScript truthiness of a value (`undefined`/absent is handled by
`Option` at use sites; `null`, `false`, `0`, and the empty string are falsy,
arrays and objects are always truthy). -/
def jsTruthy : JsonVal → Bool
  | .null => false
  | .bool b => b
  | .num n => n != 0
  | .str s => s != ""
  | .arr _ => true
  | .obj _ => true

/-- JavaScript template-literal rendering of a value, as used by
string interpolation in the source. Only the string case is exercised by the
claims; the other cases follow JS display rules approximately. -/
def jsToDisplay : JsonVal → String
  | .null => "null"
  | .bool b => if b then "true" else "false"
  | .num n => toString n
  | .str s => s
  | .arr _ => ""
  | .obj _ => "[object Object]"

/-- Modelled from the spec: `formatToolResult` (its source file
`src/tools/types.ts` is not under src/; its callers show it wraps a data
payload and provenance URLs into the single success-shaped tool result
`\x7b data, sourceUrls \x7d` that callers JSON-parse back). -/
def formatToolResult (data : JsonVal) (urls : List String) : JsonVal :=
  .obj [("data", data), ("sourceUrls", .arr (urls.map .str))]

/-! ## Agent loop data model (from `agent.ts` in src) -/

/-- Outcome of one tool invocation: the success/failure union from the spec's
`ToolOutcome`. -/
inductive ToolOutcome where
  | success (data : JsonVal) (sourceUrls : List String)
  | failure (message : String)


/-- A tool call requested by the model (`ToolCallRequest`). -/
structure ToolCall where
  id : String
  name : String
  args : List (String × JsonVal)


/-- A completed tool invocation appended to the scratchpad
(`ToolCallRecord`; timestamps omitted — no claim concerns them). -/
structure ToolCallRecord where
  call : ToolCall
  outcome : ToolOutcome


/-- Modelled from the spec: the run scratchpad (`run-context.ts` is not under
src/). It owns the ordered thinking fragments and the ordered tool call
records; both only grow. -/
structure Scratchpad where
  thinking : List String
  records : List ToolCallRecord


def Scratchpad.empty : Scratchpad := ⟨[], []⟩

def Scratchpad.addThinking (s : Scratchpad) (t : String) : Scratchpad :=
  { s with thinking := s.thinking ++ [t] }

def Scratchpad.addRecords (s : Scratchpad) (rs : List ToolCallRecord) : Scratchpad :=
  { s with records := s.records ++ rs }

/-- Modelled from the spec: deterministic rendering of one outcome for the
prompt fragment. -/
def renderOutcome : ToolOutcome → String
  | .success d _ => jsToDisplay d
  | .failure m => "Failure: " ++ m

/-- Modelled from the spec: deterministic rendering of an ordered record
sequence for the prompt fragment, preserving insertion order. -/
def renderToolRecords (records : List ToolCallRecord) : String :=
  String.intercalate "\n" (records.map fun r => r.call.name ++ ": " ++ renderOutcome r.outcome)

/-- Modelled from the spec: `getToolResults` renders the accumulated records
deterministically in insertion order. -/
def Scratchpad.getToolResults (s : Scratchpad) : String :=
  renderToolRecords s.records

/-- The events the run yields to its caller (`AgentEvent`). The `done`
event's `totalTime`/`tokenUsage` fields are omitted (wall clock / provider
accounting, not referenced by any claim); `answer` is `Option String` because
the source passes the model content through, which may be absent. -/
inductive AgentEvent where
  | thinking (message : String)
  | toolStart (tool : String) (args : List (String × JsonVal))
  | toolEnd (tool : String) (result : ToolOutcome)
  | done (answer : Option String) (toolCalls : List ToolCallRecord) (iterations : Nat)
  | error (message : String)


/-- One model response (`AIMessage`): optional textual content (absent models
a falsy/undefined `content`) and the requested tool calls. -/
structure ModelResponse where
  content : Option String
  tool_calls : List ToolCall


/-- The external world of one run: the model's response (or thrown error,
e.g. after retry exhaustion) per iteration, the behaviour of each tool call,
and the state of the cancellation signal as observed at each iteration
boundary and during each iteration's dispatch batch. Iterations are numbered
from 1 as in the source (`ctx.iteration++` runs before the body). -/
structure RunOracle where
  llm : Nat → Except String ModelResponse
  outcome : ToolCall → ToolOutcome
  abortedAt : Nat → Bool
  execAborted : Nat → Bool

/-- Modelled from the spec: the tool executor's dispatch of one batch
(`tool-executor.ts` is not under src/). Per spec §4.3 each call yields a
`tool_start` event, is invoked, yields a `tool_end` event carrying its
outcome, and is appended to the scratchpad as one record; unknown-tool
resolution and approval denial are particular `failure` outcomes of the
per-call oracle. Batch-level cancellation is checked by the caller before
dispatch (the only whole-batch abort). -/
def executeAll (outcome : ToolCall → ToolOutcome) : List ToolCall → List AgentEvent × List ToolCallRecord
  | [] => ([], [])
  | tc :: rest =>
      let o := outcome tc
      let (evs, recs) := executeAll outcome rest
      (.toolStart tc.name tc.args :: .toolEnd tc.name o :: evs, ⟨tc, o⟩ :: recs)

/-- Result of one pass of the loop body: continue to the next iteration,
finish normally, or terminate with an uncaught failure. In each case the
events the pass yielded are carried along. -/
inductive StepResult where
  | cont (events : List AgentEvent) (scratch : Scratchpad)
  | finish (events : List AgentEvent)
  | fail (events : List AgentEvent) (err : String)


/-- The fixed budget-exhausted note prefixed to the degraded-success answer
(from `agent.ts`). -/
def budgetNote : String :=
  "I\x27ve reached the maximum number of attempts and couldn\x27t find a final answer. Here is the information I gathered so far: \n\n"

/-- The budget-exhausted answer text built after the loop ends
(from `agent.ts`). -/
def budgetAnswer (s : Scratchpad) : String :=
  budgetNote ++ s.getToolResults

/-- The `thinking` event wording: distinct for the first iteration
(from `agent.ts`). -/
def thinkingMessage (iter : Nat) : String :=
  if iter = 1 then "Analyzing query..." else "Analyzing results..."

/-- `if (response.content) ctx.scratchpad.addThinking(thought)`: truthy
(present, non-empty) model content is recorded unconditionally, before the
tool-call check (from `agent.ts`). -/
def recordThinking (scratch : Scratchpad) (content : Option String) : Scratchpad :=
  match content with
  | some c => if c ≠ "" then scratch.addThinking c else scratch
  | none => scratch

/-- One iteration of `Agent.run`'s while-loop body (from `agent.ts`):
check cancellation, emit the `thinking` event, invoke the model, record truthy
content as thinking, then either dispatch the tool calls and continue, or
emit the terminal `done` event. `iter` is the already-incremented iteration
counter. -/
def runStep (o : RunOracle) (iter : Nat) (scratch : Scratchpad) : StepResult :=
  if o.abortedAt iter then .fail [] "Agent execution cancelled"
  else
    match o.llm iter with
    | .error e => .fail [.thinking (thinkingMessage iter)] e
    | .ok resp =>
      if resp.tool_calls.isEmpty then
        .finish [.thinking (thinkingMessage iter),
                 .done resp.content (recordThinking scratch resp.content).records iter]
      else if o.execAborted iter then
        .fail [.thinking (thinkingMessage iter)] "Agent execution cancelled"
      else
        .cont (.thinking (thinkingMessage iter) :: (executeAll o.outcome resp.tool_calls).1)
          ((recordThinking scratch resp.content).addRecords (executeAll o.outcome resp.tool_calls).2)

/-- The full event trace of a run plus its uncaught failure, if any (an
async generator either completes or ends by throwing; the throw is the
`err` field and by construction comes after every yielded event). -/
structure RunResult where
  events : List AgentEvent
  err : Option String


/-- The loop of `Agent.run` from iteration counter `iter` with
`remaining = maxIterations - iter` passes left; when the budget is exhausted
it emits the degraded-success `done` event. -/
def runFrom (o : RunOracle) : Nat → Nat → Scratchpad → RunResult
  | 0, iter, scratch =>
      ⟨[.done (some (budgetAnswer scratch)) scratch.records iter], none⟩
  | remaining + 1, iter, scratch =>
      match runStep o (iter + 1) scratch with
      | .fail evs e => ⟨evs, some e⟩
      | .finish evs => ⟨evs, none⟩
      | .cont evs scratch1 =>
          let rest := runFrom o remaining (iter + 1) scratch1
          ⟨evs ++ rest.events, rest.err⟩

/-- `Agent.run` on a fresh run context. -/
def agentRun (o : RunOracle) (maxIterations : Nat) : RunResult :=
  runFrom o maxIterations 0 .empty

/-- Whether an event is the terminal `done` event. -/
def isDoneEvent : AgentEvent → Bool
  | .done .. => true
  | _ => false

/-- Whether an event is a `thinking` event (one is emitted per iteration,
immediately before the model call). -/
def isThinkingEvent : AgentEvent → Bool
  | .thinking _ => true
  | _ => false

def countDone (evs : List AgentEvent) : Nat := (evs.filter isDoneEvent).length

def countThinking (evs : List AgentEvent) : Nat := (evs.filter isThinkingEvent).length

/-! ## LLM retry helper (from `src/model/llm.ts`) -/

/-- The body of `withRetry`'s for-loop from attempt index `attempt`, with
`remaining` loop passes left (`remaining = maxAttempts - attempt`). The
attempt oracle `fn` gives each attempt's result; a failure on the last
attempt rethrows the underlying error, otherwise the loop sleeps
`500 * 2 ^ attempt` milliseconds (collected in the returned delay list) and
retries. The `remaining = 0` case is the unreachable throw after the loop. -/
def withRetryFrom (fn : Nat → Except String α) : Nat → Nat → Except String α × List Nat
  | 0, _ => (.error "Unreachable", [])
  | remaining + 1, attempt =>
      match fn attempt with
      | .ok a => (.ok a, [])
      | .error e =>
          if remaining = 0 then (.error e, [])
          else
            let rest := withRetryFrom fn remaining (attempt + 1)
            (rest.1, 500 * 2 ^ attempt :: rest.2)

/-- `withRetry(fn, provider, maxAttempts = 3)`: run the attempts from index 0.
Returns the final result together with the backoff delays slept. -/
def withRetry (fn : Nat → Except String α) (maxAttempts : Nat := 3) :
    Except String α × List Nat :=
  withRetryFrom fn maxAttempts 0

/-- The retry slice of `callLlm`: it wraps the single chain invocation in
`withRetry` with the default attempt count (it passes only the function and
the provider display name). Prompt assembly and usage extraction do not touch
the retry behaviour and are elided; the attempt oracle stands for
`chain.invoke`. -/
def callLlm (chainInvoke : Nat → Except String α) : Except String α × List Nat :=
  withRetry chainInvoke

/-! ## Finance tools (from `src/tools/finance/alpha_vantage.ts` and
`src/tools/finance/yahoo.ts`) -/

/-- The JSON body Alpha Vantage's GLOBAL_QUOTE endpoint returns, as the
fields the source inspects: an optional "Error Message", an optional "Note"
(rate limit), and the optional "Global Quote" object (absent or empty when
the ticker is unknown). -/
structure AVRaw where
  errorMessage : Option String
  note : Option String
  globalQuote : Option (List (String × JsonVal))

/-- The quote-to-data projection of `getAlphaVantagePriceSnapshot` (the
fields it copies out of "Global Quote"; numeric parsing is kept as the raw
field values since no claim inspects them). -/
def avQuoteData (q : List (String × JsonVal)) : JsonVal :=
  .obj [
    ("symbol", (jsonLookup q "01. symbol").getD .null),
    ("price", (jsonLookup q "05. price").getD .null),
    ("open", (jsonLookup q "02. open").getD .null),
    ("high", (jsonLookup q "03. high").getD .null),
    ("low", (jsonLookup q "04. low").getD .null),
    ("volume", (jsonLookup q "06. volume").getD .null),
    ("latestTradingDay", (jsonLookup q "07. latest trading day").getD .null),
    ("previousClose", (jsonLookup q "08. previous close").getD .null),
    ("change", (jsonLookup q "09. change").getD .null),
    ("changePercent", (jsonLookup q "10. change percent").getD .null)]

/-- The try-block body of `getAlphaVantagePriceSnapshot`: a thrown error is
an `Except.error` carrying the JS string rendering of the thrown value
("Error: " prefix for `new Error(msg)`), a normal return is `Except.ok`.
`apiKey` models `process.env.ALPHA_VANTAGE_API_KEY`; `fetched` models the
awaited `fetch`/`response.json()` pair (its `.error` is a rejected fetch or
invalid JSON). -/
def avPriceBody (apiKey : Option String) (fetched : Except String AVRaw)
    (ticker : String) : Except String JsonVal :=
  match apiKey with
  | none => .error "Error: ALPHA_VANTAGE_API_KEY is not set in .env"
  | some _ =>
      match fetched with
      | .error e => .error e
      | .ok rawData =>
          match rawData.errorMessage with
          | some m => .error ("Error: " ++ m)
          | none =>
              match rawData.note with
              | some n => .error ("Error: Alpha Vantage API Limit: " ++ n)
              | none =>
                  match rawData.globalQuote with
                  | none => .ok (formatToolResult (.obj [("error", .str ("No data found for " ++ ticker ++ ". check validity."))]) [])
                  | some q =>
                      if q.length = 0 then
                        .ok (formatToolResult (.obj [("error", .str ("No data found for " ++ ticker ++ ". check validity."))]) [])
                      else
                        .ok (formatToolResult (avQuoteData q) ["https://www.alphavantage.co"])

/-- `getAlphaVantagePriceSnapshot.func`: the try/catch boundary around
`avPriceBody` — every thrown error is converted into a formatted tool result
whose payload describes the failure. -/
def getAlphaVantagePriceSnapshot (apiKey : Option String)
    (fetched : Except String AVRaw) (ticker : String) : JsonVal :=
  match avPriceBody apiKey fetched ticker with
  | .ok r => r
  | .error e =>
      formatToolResult (.obj [("error", .str ("Failed to fetch price for " ++ ticker ++ ": " ++ e))]) []

/-- The fields `getYahooPriceSnapshot` copies out of the Yahoo quote, plus
the timestamp it appends. The quote oracle is the awaited
`yahooFinance.quote(ticker)`; its `.error` is a rejected fetch. -/
def yahooQuoteData (quote : List (String × JsonVal)) (timestamp : String) : JsonVal :=
  .obj [
    ("symbol", (jsonLookup quote "symbol").getD .null),
    ("price", (jsonLookup quote "regularMarketPrice").getD .null),
    ("currency", (jsonLookup quote "currency").getD .null),
    ("exchange", (jsonLookup quote "exchange").getD .null),
    ("open", (jsonLookup quote "regularMarketOpen").getD .null),
    ("high", (jsonLookup quote "regularMarketDayHigh").getD .null),
    ("low", (jsonLookup quote "regularMarketDayLow").getD .null),
    ("previousClose", (jsonLookup quote "regularMarketPreviousClose").getD .null),
    ("volume", (jsonLookup quote "regularMarketVolume").getD .null),
    ("marketCap", (jsonLookup quote "marketCap").getD .null),
    ("timestamp", .str timestamp)]

/-- `getYahooPriceSnapshot.func`: fetch the quote in a try block and format
it; any thrown error is caught at the boundary and converted to a formatted
result describing the failure. `now` models `new Date().toISOString()`. -/
def getYahooPriceSnapshot (quoteResult : Except String (List (String × JsonVal)))
    (now : String) (ticker : String) : JsonVal :=
  match quoteResult with
  | .ok quote =>
      formatToolResult (yahooQuoteData quote now) ["https://finance.yahoo.com/quote/" ++ ticker]
  | .error e =>
      formatToolResult (.obj [("error", .str ("Failed to fetch price for " ++ ticker ++ ": " ++ e))]) []

/-! ## The financial_search meta-router (from `financial_search.ts` in src) -/

/-- One per-sub-tool record produced inside the meta-router's `Promise.all`:
the sub-tool name, the call's arguments, the extracted data and provenance
URLs on success, and the caught error message on failure. -/
structure SubResult where
  tool : String
  args : List (String × JsonVal)
  data : JsonVal
  sourceUrls : List String
  error : Option String

/-- `parsed.data || parsed` — use the `data` field when present and truthy,
the whole parsed value otherwise (handles wrapped and unwrapped results). -/
def extractData (parsed : JsonVal) : JsonVal :=
  match parsed with
  | .obj fs =>
      match jsonLookup fs "data" with
      | some d => if jsTruthy d then d else parsed
      | none => parsed
  | _ => parsed

/-- `parsed.sourceUrls || []` — the provenance URL list, empty when absent.
Every producer (`formatToolResult`) stores URLs as strings, so non-string
entries do not arise and are dropped here. -/
def extractUrls (parsed : JsonVal) : List String :=
  match parsed with
  | .obj fs =>
      match jsonLookup fs "sourceUrls" with
      | some (.arr xs) => xs.filterMap fun v => match v with | .str s => some s | _ => none
      | _ => []
  | _ => []

/-- One arm of the meta-router's `Promise.all`: resolve the sub-tool against
the finance tool map (`known` is its name set), invoke it, and JSON-parse its
result; the surrounding try/catch converts any thrown error — including an
unknown sub-tool name — into a per-sub-tool error record (`error.message`,
without the JS "Error: " rendering prefix). The oracle `invoke` stands for
`tool.invoke` followed by `JSON.parse`; its `.error` is the caught message. -/
def dispatchSubCall (known : List String) (invoke : ToolCall → Except String JsonVal)
    (tc : ToolCall) : SubResult :=
  if known.contains tc.name then
    match invoke tc with
    | .ok parsed =>
        { tool := tc.name, args := tc.args, data := extractData parsed,
          sourceUrls := extractUrls parsed, error := none }
    | .error e =>
        { tool := tc.name, args := tc.args, data := .null, sourceUrls := [], error := some e }
  else
    { tool := tc.name, args := tc.args, data := .null, sourceUrls := [],
      error := some ("Tool \x27" ++ tc.name ++ "\x27 not found") }

/-- JS object assignment `o[k] = v`: overwrite in place when the key exists,
append otherwise (JS objects keep first-insertion key order). -/
def setKey : List (String × JsonVal) → String → JsonVal → List (String × JsonVal)
  | [], k, v => [(k, v)]
  | (k0, v0) :: rest, k, v =>
      if k0 = k then (k0, v) :: rest else (k0, v0) :: setKey rest k v

/-- One pass of the meta-router's combine loop: a failed call is recorded
under `{tool}_error`; a successful one under `{tool}_{ticker}` when its
arguments carry a truthy `ticker`, else `{tool}`, and its URLs are appended. -/
def mergeStep (acc : List (String × JsonVal) × List String) (r : SubResult) :
    List (String × JsonVal) × List String :=
  match r.error with
  | some e => (setKey acc.1 (r.tool ++ "_error") (.str e), acc.2)
  | none =>
      let key := match jsonLookup r.args "ticker" with
        | some t => if jsTruthy t then r.tool ++ "_" ++ jsToDisplay t else r.tool
        | none => r.tool
      (setKey acc.1 key r.data, acc.2 ++ r.sourceUrls)

/-- The meta-router's combine loop over all per-sub-tool results. -/
def mergeResults (results : List SubResult) : List (String × JsonVal) × List String :=
  results.foldl mergeStep ([], [])

/-- The key under which one per-sub-tool result is written by the combine
loop (read off `mergeStep`). -/
def mergeKey (r : SubResult) : String :=
  match r.error with
  | some _ => r.tool ++ "_error"
  | none =>
      match jsonLookup r.args "ticker" with
      | some t => if jsTruthy t then r.tool ++ "_" ++ jsToDisplay t else r.tool
      | none => r.tool

/-- The value one per-sub-tool result writes into the merged object. -/
def mergeVal (r : SubResult) : JsonVal :=
  match r.error with
  | some e => .str e
  | none => r.data

/-- `Array.from(new Set(xs))`: drop later duplicates, keeping first
occurrences in insertion order (`seen` accumulates the kept elements). -/
def jsSetDedupAux (seen : List String) : List String → List String
  | [] => []
  | x :: xs => if x ∈ seen then jsSetDedupAux seen xs else x :: jsSetDedupAux (x :: seen) xs

def jsSetDedup (xs : List String) : List String := jsSetDedupAux [] xs

/-- `financial_search`'s `func`: ask the routing model which sub-tools apply
(`routerResult`; its `.error` is a routing call that threw, the only way the
meta-router itself throws), return an explanatory success payload when none
were selected, otherwise dispatch every selected sub-tool and merge. -/
def financialSearchFunc (routerResult : Except String ModelResponse)
    (known : List String) (invoke : ToolCall → Except String JsonVal) :
    Except String JsonVal :=
  match routerResult with
  | .error e => .error e
  | .ok aiMessage =>
      if aiMessage.tool_calls.isEmpty then
        .ok (formatToolResult
          (.obj [("error", .str "No tools selected for query"),
                 ("message", .str (aiMessage.content.getD "Router did not select tools"))]) [])
      else
        let results := aiMessage.tool_calls.map (dispatchSubCall known invoke)
        let merged := mergeResults results
        .ok (formatToolResult (.obj merged.1) (jsSetDedup merged.2))

/-- The sub-tool names of the finance tool map that are declared under src/
(the remaining sub-tool modules are external to src/); all theorems below are
parametric in the name set, this list only instantiates witnesses. -/
def financeToolNames : List String :=
  ["get_yahoo_price_snapshot", "get_yahoo_fundamentals", "get_yahoo_news",
   "get_alpha_vantage_price_snapshot", "get_alpha_vantage_overview"]

/-- A concrete attempt oracle failing once then succeeding, for the C8
witness. -/
def retryProbe : Nat → Except String Nat :=
  fun k => if k = 0 then .error "transient" else .ok 7

/-- A concrete run oracle: one tool-calling response then a final answer
(for witnesses). -/
def oracleTwoStep : RunOracle where
  llm := fun i =>
    if i = 1 then .ok ⟨some "thought", [⟨"1", "get_stock_price", [("ticker", .str "AAPL")]⟩]⟩
    else .ok ⟨some "answer", []⟩
  outcome := fun _ => .success (.str "ok") []
  abortedAt := fun _ => false
  execAborted := fun _ => false

/-- A concrete run oracle whose model always requests a tool call
(for witnesses). -/
def oracleAlwaysTools : RunOracle where
  llm := fun _ => .ok ⟨none, [⟨"1", "get_stock_price", []⟩]⟩
  outcome := fun _ => .failure "not approved"
  abortedAt := fun _ => false
  execAborted := fun _ => false

/-- A concrete run oracle whose cancellation token is signaled from the
start (for witnesses). -/
def oracleAborted : RunOracle where
  llm := fun _ => .ok ⟨none, []⟩
  outcome := fun _ => .failure "x"
  abortedAt := fun _ => true
  execAborted := fun _ => false

/-! ## Helper lemmas -/

theorem jsonLookup_setKey_self (l : List (String × JsonVal)) (k : String) (v : JsonVal) :
    jsonLookup (setKey l k v) k = some v := by
  induction l with
  | nil => simp [setKey, jsonLookup]
  | cons hd tl ih =>
      obtain ⟨k0, v0⟩ := hd
      by_cases hk : k0 = k <;> simp [setKey, jsonLookup, hk, ih]

theorem jsonLookup_setKey_isSome (l : List (String × JsonVal)) (k : String) (v : JsonVal)
    (k0 : String) (h : (jsonLookup l k0).isSome) :
    (jsonLookup (setKey l k v) k0).isSome := by
  induction l with
  | nil => simp [jsonLookup] at h
  | cons hd tl ih =>
      obtain ⟨k1, v1⟩ := hd
      by_cases h1 : k1 = k
      · by_cases h0 : k1 = k0 <;> simp_all [setKey, jsonLookup]
      · by_cases h0 : k1 = k0 <;> simp_all [setKey, jsonLookup]

theorem mergeStep_fst (acc : List (String × JsonVal) × List String) (r : SubResult) :
    (mergeStep acc r).1 = setKey acc.1 (mergeKey r) (mergeVal r) := by
  cases h : r.error <;> simp [mergeStep, mergeKey, mergeVal, h]

theorem mergeFold_preserves (rs : List SubResult) :
    ∀ (acc : List (String × JsonVal) × List String) (k : String),
      (jsonLookup acc.1 k).isSome →
      (jsonLookup (List.foldl mergeStep acc rs).1 k).isSome := by
  induction rs with
  | nil => intro acc k h; simpa using h
  | cons r rs ih =>
      intro acc k h
      simp only [List.foldl_cons]
      exact ih _ k (by rw [mergeStep_fst]; exact jsonLookup_setKey_isSome _ _ _ _ h)

theorem mergeFold_mem (rs : List SubResult) :
    ∀ (acc : List (String × JsonVal) × List String) (r : SubResult), r ∈ rs →
      (jsonLookup (List.foldl mergeStep acc rs).1 (mergeKey r)).isSome := by
  induction rs with
  | nil => intro acc r h; cases h
  | cons r0 rs ih =>
      intro acc r h
      simp only [List.foldl_cons]
      rcases List.mem_cons.mp h with h | h
      · subst h
        exact mergeFold_preserves rs _ _
          (by rw [mergeStep_fst]; simp [jsonLookup_setKey_self])
      · exact ih _ r h

theorem mergeResults_mem (rs : List SubResult) (r : SubResult) (h : r ∈ rs) :
    (jsonLookup (mergeResults rs).1 (mergeKey r)).isSome :=
  mergeFold_mem rs ([], []) r h

theorem jsSetDedupAux_nodup (xs : List String) :
    ∀ seen : List String,
      (jsSetDedupAux seen xs).Nodup ∧ ∀ x ∈ jsSetDedupAux seen xs, x ∉ seen := by
  induction xs with
  | nil => intro seen; simp [jsSetDedupAux]
  | cons x xs ih =>
      intro seen
      by_cases hx : x ∈ seen
      · simpa [jsSetDedupAux, hx] using ih seen
      · obtain ⟨hnd, hsub⟩ := ih (x :: seen)
        refine ⟨?_, ?_⟩ <;> simp only [jsSetDedupAux, if_neg hx]
        · exact List.nodup_cons.mpr
            ⟨fun hmem => (hsub x hmem) (List.mem_cons_self x seen), hnd⟩
        · intro y hy
          rcases List.mem_cons.mp hy with h | h
          · subst h; exact hx
          · exact fun hys => (hsub y h) (List.mem_cons_of_mem x hys)

theorem jsSetDedup_nodup (xs : List String) : (jsSetDedup xs).Nodup :=
  (jsSetDedupAux_nodup xs []).1

theorem dispatchSubCall_tool (known : List String) (invoke : ToolCall → Except String JsonVal)
    (tc : ToolCall) : (dispatchSubCall known invoke tc).tool = tc.name := by
  unfold dispatchSubCall
  split
  · split <;> rfl
  · rfl

theorem dispatchSubCall_args (known : List String) (invoke : ToolCall → Except String JsonVal)
    (tc : ToolCall) : (dispatchSubCall known invoke tc).args = tc.args := by
  unfold dispatchSubCall
  split
  · split <;> rfl
  · rfl

theorem countDone_append (a b : List AgentEvent) :
    countDone (a ++ b) = countDone a + countDone b := by
  simp [countDone, List.filter_append]

theorem countThinking_append (a b : List AgentEvent) :
    countThinking (a ++ b) = countThinking a + countThinking b := by
  simp [countThinking, List.filter_append]

theorem countDone_thinking_cons (m : String) (evs : List AgentEvent) :
    countDone (.thinking m :: evs) = countDone evs := by
  simp [countDone, isDoneEvent]

theorem countThinking_thinking_cons (m : String) (evs : List AgentEvent) :
    countThinking (.thinking m :: evs) = 1 + countThinking evs := by
  simp [countThinking, isThinkingEvent, Nat.add_comm]

theorem executeAll_countDone (outcome : ToolCall → ToolOutcome) (calls : List ToolCall) :
    countDone (executeAll outcome calls).1 = 0 := by
  induction calls with
  | nil => rfl
  | cons tc rest ih => simpa [executeAll, countDone, isDoneEvent] using ih

theorem executeAll_countThinking (outcome : ToolCall → ToolOutcome) (calls : List ToolCall) :
    countThinking (executeAll outcome calls).1 = 0 := by
  induction calls with
  | nil => rfl
  | cons tc rest ih => simpa [executeAll, countThinking, isThinkingEvent] using ih

theorem executeAll_start_mem (outcome : ToolCall → ToolOutcome) (calls : List ToolCall)
    (tc : ToolCall) (h : tc ∈ calls) :
    AgentEvent.toolStart tc.name tc.args ∈ (executeAll outcome calls).1 := by
  induction calls with
  | nil => cases h
  | cons tc0 rest ih =>
      rcases List.mem_cons.mp h with h | h
      · subst h; simp [executeAll]
      · simp [executeAll, ih h]

theorem runStep_fail_countDone (o : RunOracle) (iter : Nat) (scratch : Scratchpad)
    (evs : List AgentEvent) (e : String) (h : runStep o iter scratch = .fail evs e) :
    countDone evs = 0 := by
  unfold runStep at h
  split at h
  · cases h; rfl
  · split at h
    · cases h; rfl
    · split at h
      · cases h
      · split at h
        · cases h; rfl
        · cases h

theorem runStep_cont_shape (o : RunOracle) (iter : Nat) (scratch : Scratchpad)
    (evs : List AgentEvent) (scratch1 : Scratchpad)
    (h : runStep o iter scratch = .cont evs scratch1) :
    ∃ resp, o.llm iter = .ok resp ∧
      evs = .thinking (thinkingMessage iter) :: (executeAll o.outcome resp.tool_calls).1 ∧
      scratch1 = (recordThinking scratch resp.content).addRecords
        (executeAll o.outcome resp.tool_calls).2 := by
  unfold runStep at h
  split at h
  · cases h
  · split at h
    · cases h
    · split at h
      · cases h
      · split at h
        · cases h
        · cases h
          exact ⟨_, by assumption, rfl, rfl⟩

theorem runStep_cont_countDone (o : RunOracle) (iter : Nat) (scratch : Scratchpad)
    (evs : List AgentEvent) (scratch1 : Scratchpad)
    (h : runStep o iter scratch = .cont evs scratch1) :
    countDone evs = 0 := by
  obtain ⟨resp, _, hevs, _⟩ := runStep_cont_shape o iter scratch evs scratch1 h
  subst hevs
  simpa [countDone, isDoneEvent] using executeAll_countDone o.outcome resp.tool_calls

theorem runStep_finish_shape (o : RunOracle) (iter : Nat) (scratch : Scratchpad)
    (evs : List AgentEvent) (h : runStep o iter scratch = .finish evs) :
    ∃ ans recs, evs = [.thinking (thinkingMessage iter), .done ans recs iter] := by
  unfold runStep at h
  split at h
  · cases h
  · split at h
    · cases h
    · split at h
      · cases h; exact ⟨_, _, rfl⟩
      · split at h
        · cases h
        · cases h

/-- Terminal-signal invariant of `Agent.run`'s loop: for any oracle and
iteration budget, a run that ends without an uncaught failure has exactly
one `done` event and it is last, while a run ending in an uncaught failure
has no `done` event at all. -/
theorem runFrom_terminal (o : RunOracle) :
    ∀ (r iter : Nat) (scratch : Scratchpad),
      ((runFrom o r iter scratch).err = none →
        ∃ pre ans recs its,
          (runFrom o r iter scratch).events = pre ++ [.done ans recs its] ∧ countDone pre = 0) ∧
      (∀ e, (runFrom o r iter scratch).err = some e →
        countDone (runFrom o r iter scratch).events = 0) := by
  intro r
  induction r with
  | zero =>
      intro iter scratch
      refine ⟨fun _ => ⟨[], _, _, _, rfl, rfl⟩, fun e he => ?_⟩
      simp [runFrom] at he
  | succ n ih =>
      intro iter scratch
      cases hstep : runStep o (iter + 1) scratch with
      | fail evs e1 =>
          simp only [runFrom, hstep]
          exact ⟨fun h => by simp at h,
                 fun e he => runStep_fail_countDone o (iter + 1) scratch evs e1 hstep⟩
      | finish evs =>
          simp only [runFrom, hstep]
          refine ⟨fun _ => ?_, fun e he => by simp at he⟩
          obtain ⟨ans, recs, hevs⟩ := runStep_finish_shape o (iter + 1) scratch evs hstep
          exact ⟨[.thinking (thinkingMessage (iter + 1))], ans, recs, iter + 1, by rw [hevs]; rfl, rfl⟩
      | cont evs scratch1 =>
          simp only [runFrom, hstep]
          obtain ⟨ihok, iherr⟩ := ih (iter + 1) scratch1
          have hde : countDone evs = 0 :=
            runStep_cont_countDone o (iter + 1) scratch evs scratch1 hstep
          refine ⟨fun h => ?_, fun e he => ?_⟩
          · obtain ⟨pre, ans, recs, its, hev, hpre⟩ := ihok h
            refine ⟨evs ++ pre, ans, recs, its, ?_, ?_⟩
            · rw [hev, ← List.append_assoc]
            · rw [countDone_append, hde, hpre]
          · rw [countDone_append, hde, iherr e he]

/-- C2 core: when every iteration continues (no cancellation, model always
returns tool calls), the loop runs its full budget and ends with the
degraded-success `done` event. -/
theorem runFrom_budget (o : RunOracle) :
    ∀ (r iter : Nat) (scratch : Scratchpad),
      (∀ j, j < r → o.abortedAt (iter + j + 1) = false ∧ o.execAborted (iter + j + 1) = false ∧
        ∃ resp, o.llm (iter + j + 1) = .ok resp ∧ resp.tool_calls ≠ []) →
      (runFrom o r iter scratch).err = none ∧
      countThinking (runFrom o r iter scratch).events = r ∧
      ∃ pre recs, (runFrom o r iter scratch).events =
        pre ++ [.done (some (budgetNote ++ renderToolRecords recs)) recs (iter + r)] := by
  intro r
  induction r with
  | zero =>
      intro iter scratch _
      exact ⟨rfl, rfl, [], scratch.records, rfl⟩
  | succ n ih =>
      intro iter scratch hcond
      obtain ⟨hab, hex, resp, hllm, htc⟩ := hcond 0 (Nat.succ_pos n)
      have hne : resp.tool_calls.isEmpty = false := by simpa [List.isEmpty_iff] using htc
      have hstep : runStep o (iter + 1) scratch =
          .cont (.thinking (thinkingMessage (iter + 1)) :: (executeAll o.outcome resp.tool_calls).1)
            ((recordThinking scratch resp.content).addRecords
              (executeAll o.outcome resp.tool_calls).2) := by
        unfold runStep
        simp [hab, hllm, hne, hex]
      obtain ⟨iherr, ihth, pre, recs, ihshape⟩ :=
        ih (iter + 1) ((recordThinking scratch resp.content).addRecords
          (executeAll o.outcome resp.tool_calls).2)
          (fun j hj => by
            have := hcond (j + 1) (by omega)
            simpa [Nat.add_assoc, Nat.add_comm 1 j] using this)
      simp only [runFrom, hstep]
      refine ⟨iherr, ?_, ?_⟩
      · rw [countThinking_append, countThinking_thinking_cons,
          executeAll_countThinking, ihth]
        omega
      · refine ⟨.thinking (thinkingMessage (iter + 1)) ::
          (executeAll o.outcome resp.tool_calls).1 ++ pre, recs, ?_⟩
        have harith : iter + 1 + n = iter + (n + 1) := by omega
        rw [ihshape, harith]
        simp

/-- C4 core: when iterations `iter+1 .. iter+a` all continue and the signal
is observed at boundary `iter+a+1` (within budget), the run fails with the
cancellation error, emits no `done` event, and has emitted exactly `a`
`thinking` events (so the model is not invoked at the cancelled boundary). -/
theorem runFrom_cancel (o : RunOracle) :
    ∀ (a r iter : Nat) (scratch : Scratchpad), a < r →
      (∀ j, j < a → o.abortedAt (iter + j + 1) = false ∧ o.execAborted (iter + j + 1) = false ∧
        ∃ resp, o.llm (iter + j + 1) = .ok resp ∧ resp.tool_calls ≠ []) →
      o.abortedAt (iter + a + 1) = true →
      (runFrom o r iter scratch).err = some "Agent execution cancelled" ∧
      countDone (runFrom o r iter scratch).events = 0 ∧
      countThinking (runFrom o r iter scratch).events = a := by
  intro a
  induction a with
  | zero =>
      intro r iter scratch hr _ habort
      obtain ⟨n, rfl⟩ : ∃ n, r = n + 1 := ⟨r - 1, by omega⟩
      have hstep : runStep o (iter + 1) scratch = .fail [] "Agent execution cancelled" := by
        unfold runStep
        simp only [Nat.add_zero] at habort
        simp [habort]
      simp [runFrom, hstep, countDone, countThinking]
  | succ b ihb =>
      intro r iter scratch hr hcond habort
      obtain ⟨n, rfl⟩ : ∃ n, r = n + 1 := ⟨r - 1, by omega⟩
      obtain ⟨hab, hex, resp, hllm, htc⟩ := hcond 0 (Nat.succ_pos b)
      have hne : resp.tool_calls.isEmpty = false := by simpa [List.isEmpty_iff] using htc
      have hstep : runStep o (iter + 1) scratch =
          .cont (.thinking (thinkingMessage (iter + 1)) :: (executeAll o.outcome resp.tool_calls).1)
            ((recordThinking scratch resp.content).addRecords
              (executeAll o.outcome resp.tool_calls).2) := by
        unfold runStep
        simp [hab, hllm, hne, hex]
      obtain ⟨iherr, ihdone, ihth⟩ :=
        ihb n (iter + 1) ((recordThinking scratch resp.content).addRecords
            (executeAll o.outcome resp.tool_calls).2)
          (by omega)
          (fun j hj => by
            have := hcond (j + 1) (by omega)
            simpa [Nat.add_assoc, Nat.add_comm 1 j] using this)
          (by
            have harith : iter + 1 + b + 1 = iter + (b + 1) + 1 := by omega
            rwa [harith])
      simp only [runFrom, hstep]
      refine ⟨iherr, ?_, ?_⟩
      · rw [countDone_append, countDone_thinking_cons, executeAll_countDone, ihdone]
      · rw [countThinking_append, countThinking_thinking_cons,
          executeAll_countThinking, ihth]
        omega

/-! ## Claim theorems -/

/-- C2: with `maxIterations = M ≥ 1` and a model that always requests a tool
call, the run performs exactly M iterations (M `thinking` events), does not
fail, and ends with a `done` event carrying `iterations = M` whose answer is
the budget-exhausted note followed by the rendered accumulated tool
results. -/
theorem budget_exhausted_done (o : RunOracle) (M : Nat) (hM : 1 ≤ M)
    (hab : ∀ i, o.abortedAt i = false) (hex : ∀ i, o.execAborted i = false)
    (hllm : ∀ i, ∃ resp, o.llm i = .ok resp ∧ resp.tool_calls ≠ []) :
    (agentRun o M).err = none ∧
    countThinking (agentRun o M).events = M ∧
    ∃ pre recs, (agentRun o M).events =
      pre ++ [.done (some (budgetNote ++ renderToolRecords recs)) recs M] := by
  have h := runFrom_budget o M 0 .empty (fun j hj => ⟨hab _, hex _, hllm _⟩)
  simpa using h

/-- Witness for C2: with `maxIterations = 1` and a permanently tool-calling
model, the run ends after exactly one iteration with the budget-exhausted
`done` event. -/
theorem budget_exhausted_done_witness :
    (agentRun oracleAlwaysTools 1).err = none ∧
    countThinking (agentRun oracleAlwaysTools 1).events = 1 ∧
    ∃ pre recs, (agentRun oracleAlwaysTools 1).events =
      pre ++ [.done (some (budgetNote ++ renderToolRecords recs)) recs 1] :=
  budget_exhausted_done oracleAlwaysTools 1 (by omega) (fun _ => rfl) (fun _ => rfl)
    (fun _ => ⟨⟨none, [⟨"1", "get_stock_price", []⟩]⟩, rfl, by simp⟩)

/-- C3: a model response carrying both textual content and tool calls makes
the loop record the content into the scratchpad as thinking, dispatch the
tool calls (a `tool_start` per call), and continue to the next iteration;
the step emits no `done` event, so that content is never the answer of a
`done` event. -/
theorem toolcall_response_continues (o : RunOracle) (iter : Nat) (scratch : Scratchpad)
    (resp : ModelResponse) (c : String)
    (hab : o.abortedAt iter = false) (hllm : o.llm iter = .ok resp)
    (hc : resp.content = some c) (hc0 : c ≠ "")
    (htc : resp.tool_calls ≠ []) (hex : o.execAborted iter = false) :
    ∃ evs scratch1, runStep o iter scratch = .cont evs scratch1 ∧
      scratch1.thinking = scratch.thinking ++ [c] ∧
      countDone evs = 0 ∧
      ∀ tc ∈ resp.tool_calls, AgentEvent.toolStart tc.name tc.args ∈ evs := by
  have hne : resp.tool_calls.isEmpty = false := by simpa [List.isEmpty_iff] using htc
  refine ⟨.thinking (thinkingMessage iter) :: (executeAll o.outcome resp.tool_calls).1,
    (recordThinking scratch resp.content).addRecords (executeAll o.outcome resp.tool_calls).2,
    ?_, ?_, ?_, ?_⟩
  · unfold runStep
    simp [hab, hllm, hne, hex]
  · simp [recordThinking, hc, hc0, Scratchpad.addRecords, Scratchpad.addThinking]
  · rw [countDone_thinking_cons]
    exact executeAll_countDone o.outcome resp.tool_calls
  · intro tc h
    exact List.mem_cons_of_mem _ (executeAll_start_mem o.outcome resp.tool_calls tc h)

/-- Witness for C3: a concrete response with both content and a tool call
continues the loop, records the content as thinking, and emits no `done`. -/
theorem toolcall_response_continues_witness :
    ∃ evs scratch1, runStep oracleTwoStep 1 .empty = .cont evs scratch1 ∧
      scratch1.thinking = Scratchpad.empty.thinking ++ ["thought"] ∧
      countDone evs = 0 ∧
      ∀ tc ∈ [(⟨"1", "get_stock_price", [("ticker", .str "AAPL")]⟩ : ToolCall)],
        AgentEvent.toolStart tc.name tc.args ∈ evs :=
  toolcall_response_continues oracleTwoStep 1 .empty
    ⟨some "thought", [⟨"1", "get_stock_price", [("ticker", .str "AAPL")]⟩]⟩ "thought"
    rfl rfl rfl (by simp) (by simp) rfl

/-- C4: when the cancellation token is already signaled at iteration
boundary k (the first k-1 iterations having continued normally), the run
terminates with the cancellation error, emits no `done` event, and emits
exactly k-1 `thinking` events — so the model is not invoked for iteration k
and nothing is produced after the signal is observed. -/
theorem cancellation_stops_run (o : RunOracle) (M k : Nat) (hk : 1 ≤ k) (hkM : k ≤ M)
    (hprev : ∀ i, 1 ≤ i → i < k →
      o.abortedAt i = false ∧ o.execAborted i = false ∧
      ∃ resp, o.llm i = .ok resp ∧ resp.tool_calls ≠ [])
    (habk : o.abortedAt k = true) :
    (agentRun o M).err = some "Agent execution cancelled" ∧
    countDone (agentRun o M).events = 0 ∧
    countThinking (agentRun o M).events = k - 1 := by
  have h := runFrom_cancel o (k - 1) M 0 .empty (by omega)
    (fun j hj => by
      have := hprev (j + 1) (by omega) (by omega)
      simpa using this)
    (by
      have harith : 0 + (k - 1) + 1 = k := by omega
      rwa [harith])
  simpa using h

/-- Witness for C4: a token signaled before the first iteration terminates
the run with the cancellation error, no `done` event, and no model call. -/
theorem cancellation_stops_run_witness :
    (agentRun oracleAborted 1).err = some "Agent execution cancelled" ∧
    countDone (agentRun oracleAborted 1).events = 0 ∧
    countThinking (agentRun oracleAborted 1).events = 1 - 1 :=
  cancellation_stops_run oracleAborted 1 1 (by omega) (by omega)
    (fun i h1 h2 => (Nat.not_lt.mpr h1 h2).elim) rfl

/-- C7: when the routing model call selects no sub-tools, `financial_search`
returns normally (`Except.ok`, not a throw) with the success-shaped
`formatToolResult` payload carrying the explanatory error text and the
router's textual message. -/
theorem routing_no_tools_success (content : Option String) (known : List String)
    (invoke : ToolCall → Except String JsonVal) :
    financialSearchFunc (.ok ⟨content, []⟩) known invoke =
      .ok (formatToolResult
        (.obj [("error", .str "No tools selected for query"),
               ("message", .str (content.getD "Router did not select tools"))]) []) := by
  rfl

/-- C8: `callLlm` wraps the model invocation in `withRetry` with the fixed
attempt count 3: a first success at attempt `k < 3` returns that attempt's
result after sleeping `500 * 2 ^ j` milliseconds after each failed attempt
`j < k`, and when all 3 attempts fail the third attempt's error is rethrown
after backoff delays of exactly 500 and 1000 milliseconds. -/
theorem callLlm_retry_backoff (fn : Nat → Except String α) :
    (∀ (k : Nat) (a : α), k < 3 → fn k = .ok a → (∀ j, j < k → ∃ e, fn j = .error e) →
      callLlm fn = (.ok a, (List.range k).map fun j => 500 * 2 ^ j)) ∧
    ((∀ j, j < 3 → ∃ e, fn j = .error e) →
      ∃ e, fn 2 = .error e ∧ callLlm fn = (.error e, [500, 1000])) := by
  constructor
  · intro k a hk hok hprev
    interval_cases k
    · simp [callLlm, withRetry, withRetryFrom, hok]
    · obtain ⟨e0, h0⟩ := hprev 0 (by omega)
      simp [callLlm, withRetry, withRetryFrom, hok, h0, List.range_succ]
    · obtain ⟨e0, h0⟩ := hprev 0 (by omega)
      obtain ⟨e1, h1⟩ := hprev 1 (by omega)
      simp [callLlm, withRetry, withRetryFrom, hok, h0, h1, List.range_succ]
  · intro hall
    obtain ⟨e0, h0⟩ := hall 0 (by omega)
    obtain ⟨e1, h1⟩ := hall 1 (by omega)
    obtain ⟨e2, h2⟩ := hall 2 (by omega)
    exact ⟨e2, h2, by simp [callLlm, withRetry, withRetryFrom, h0, h1, h2]⟩

/-- Witness for C8: with one transient failure, `callLlm` returns the second
attempt's result after a single 500 ms backoff. -/
theorem callLlm_retry_backoff_witness : callLlm retryProbe = (.ok 7, [500]) := by
  have h := (callLlm_retry_backoff retryProbe).1 1 7 (by omega) (by simp [retryProbe])
    (fun j hj => ⟨"transient", by interval_cases j; simp [retryProbe]⟩)
  simpa [List.range_succ] using h

/-- C9: the Alpha Vantage and Yahoo price-snapshot tools always return a
formatted tool result across their boundary — for every ticker and every
environment/fetch behaviour the result is a `formatToolResult` value — and
the specific internal throws (missing ALPHA_VANTAGE_API_KEY, a failed remote
fetch) become results whose payload describes the failure. -/
theorem finance_tools_never_throw :
    (∀ (apiKey : Option String) (fetched : Except String AVRaw) (ticker : String),
      ∃ payload urls, getAlphaVantagePriceSnapshot apiKey fetched ticker = formatToolResult payload urls) ∧
    (∀ (quoteResult : Except String (List (String × JsonVal))) (now ticker : String),
      ∃ payload urls, getYahooPriceSnapshot quoteResult now ticker = formatToolResult payload urls) ∧
    (∀ (fetched : Except String AVRaw) (ticker : String),
      getAlphaVantagePriceSnapshot none fetched ticker =
        formatToolResult (.obj [("error",
          .str ("Failed to fetch price for " ++ ticker ++ ": " ++ "Error: ALPHA_VANTAGE_API_KEY is not set in .env"))]) []) ∧
    (∀ (k e ticker : String),
      getAlphaVantagePriceSnapshot (some k) (.error e) ticker =
        formatToolResult (.obj [("error",
          .str ("Failed to fetch price for " ++ ticker ++ ": " ++ e))]) []) ∧
    (∀ (e now ticker : String),
      getYahooPriceSnapshot (.error e) now ticker =
        formatToolResult (.obj [("error",
          .str ("Failed to fetch price for " ++ ticker ++ ": " ++ e))]) []) := by
  refine ⟨?_, ?_, ?_, ?_, ?_⟩
  · intro apiKey fetched ticker
    unfold getAlphaVantagePriceSnapshot avPriceBody
    cases apiKey with
    | none => exact ⟨_, _, rfl⟩
    | some k =>
        cases fetched with
        | error e => exact ⟨_, _, rfl⟩
        | ok raw =>
            obtain ⟨em, note, gq⟩ := raw
            cases em with
            | some m => exact ⟨_, _, rfl⟩
            | none =>
                cases note with
                | some n => exact ⟨_, _, rfl⟩
                | none =>
                    cases gq with
                    | none => exact ⟨_, _, rfl⟩
                    | some q =>
                        by_cases hq : q.length = 0 <;> simp [hq]
  · intro quoteResult now ticker
    cases quoteResult <;> exact ⟨_, _, rfl⟩
  · intro fetched ticker; rfl
  · intro k e ticker; rfl
  · intro e now ticker; rfl

/-- C10: merge keys are not unique per call — two successful calls to the
same sub-tool with the same ticker (or both without one), and likewise two
failing calls to the same sub-tool, write the same key, the later entry
overwrites the earlier, and the merged object has one entry for the two
calls. -/
theorem merge_key_collision_overwrites (nm t : String) (ht : t ≠ "")
    (d1 d2 : JsonVal) (u1 u2 : List String) (e1 e2 : String)
    (a1 a2 : List (String × JsonVal)) :
    (mergeResults [⟨nm, [("ticker", .str t)], d1, u1, none⟩,
                   ⟨nm, [("ticker", .str t)], d2, u2, none⟩]).1 = [(nm ++ "_" ++ t, d2)] ∧
    (mergeResults [⟨nm, [], d1, u1, none⟩, ⟨nm, [], d2, u2, none⟩]).1 = [(nm, d2)] ∧
    (mergeResults [⟨nm, a1, d1, u1, some e1⟩, ⟨nm, a2, d2, u2, some e2⟩]).1 =
      [(nm ++ "_error", .str e2)] := by
  refine ⟨?_, ?_, ?_⟩ <;>
    simp [mergeResults, mergeStep, setKey, jsonLookup, jsTruthy, jsToDisplay, ht]

/-- The body of `financial_search` on a router response with a non-empty
tool-call list: dispatch all calls and merge (shared shape lemma). -/
theorem financialSearchFunc_dispatch (router : ModelResponse) (known : List String)
    (invoke : ToolCall → Except String JsonVal) (hne : router.tool_calls ≠ []) :
    financialSearchFunc (.ok router) known invoke =
      .ok (formatToolResult
        (.obj (mergeResults (router.tool_calls.map (dispatchSubCall known invoke))).1)
        (jsSetDedup (mergeResults (router.tool_calls.map (dispatchSubCall known invoke))).2)) := by
  have h : router.tool_calls.isEmpty = false := by
    simpa [List.isEmpty_iff] using hne
  simp [financialSearchFunc, h]

/-- C5: for every meta-router batch, each successful sub-tool call appears in
the merged object under `{subToolName}_{ticker}` when its arguments carry a
(truthy) ticker and `{subToolName}` otherwise, each failed call is recorded
under `{subToolName}_error`, and the combined source-URL list contains no
duplicates. -/
theorem financial_search_merge_keys (router : ModelResponse) (known : List String)
    (invoke : ToolCall → Except String JsonVal) (hne : router.tool_calls ≠ []) :
    ∃ merged urls,
      financialSearchFunc (.ok router) known invoke = .ok (formatToolResult (.obj merged) urls) ∧
      urls.Nodup ∧
      ∀ tc ∈ router.tool_calls,
        ((dispatchSubCall known invoke tc).error.isSome →
          (jsonLookup merged (tc.name ++ "_error")).isSome) ∧
        ((dispatchSubCall known invoke tc).error = none →
          (∀ t, jsonLookup tc.args "ticker" = some t → jsTruthy t = true →
            (jsonLookup merged (tc.name ++ "_" ++ jsToDisplay t)).isSome) ∧
          ((∀ t, jsonLookup tc.args "ticker" = some t → jsTruthy t = false) →
            (jsonLookup merged tc.name).isSome)) := by
  refine ⟨_, _, financialSearchFunc_dispatch router known invoke hne, jsSetDedup_nodup _, ?_⟩
  intro tc htc
  have hmem : dispatchSubCall known invoke tc ∈
      router.tool_calls.map (dispatchSubCall known invoke) :=
    List.mem_map_of_mem _ htc
  have hkey := mergeResults_mem _ _ hmem
  have htool := dispatchSubCall_tool known invoke tc
  have hargs := dispatchSubCall_args known invoke tc
  constructor
  · intro herr
    obtain ⟨e, he⟩ := Option.isSome_iff_exists.mp herr
    simpa [mergeKey, he, htool] using hkey
  · intro herr
    constructor
    · intro t hticker htruthy
      simpa [mergeKey, herr, hargs, hticker, htruthy, htool] using hkey
    · intro hfalsy
      cases hticker : jsonLookup tc.args "ticker" with
      | none => simpa [mergeKey, herr, hargs, hticker, htool] using hkey
      | some t =>
          simpa [mergeKey, herr, hargs, hticker, hfalsy t hticker, htool] using hkey

/-- Witness for C5: a two-call batch (one success keyed by ticker, one
throwing sub-tool) merges into an object holding both keys with a
duplicate-free URL list. -/
theorem financial_search_merge_keys_witness :
    ∃ merged urls,
      financialSearchFunc
        (.ok ⟨some "routing", [⟨"1", "get_alpha_vantage_price_snapshot", [("ticker", .str "RELIANCE.BSE")]⟩,
                               ⟨"2", "get_unknown_thing", []⟩]⟩)
        financeToolNames
        (fun _ => .ok (formatToolResult (.str "ok") ["https://www.alphavantage.co"])) =
        .ok (formatToolResult (.obj merged) urls) ∧
      urls.Nodup ∧
      (jsonLookup merged ("get_alpha_vantage_price_snapshot" ++ "_" ++ "RELIANCE.BSE")).isSome ∧
      (jsonLookup merged ("get_unknown_thing" ++ "_error")).isSome := by
  obtain ⟨merged, urls, heq, hnodup, hall⟩ :=
    financial_search_merge_keys
      ⟨some "routing", [⟨"1", "get_alpha_vantage_price_snapshot", [("ticker", .str "RELIANCE.BSE")]⟩,
                        ⟨"2", "get_unknown_thing", []⟩]⟩
      financeToolNames
      (fun _ => .ok (formatToolResult (.str "ok") ["https://www.alphavantage.co"]))
      (by simp)
  refine ⟨merged, urls, heq, hnodup, ?_, ?_⟩
  · have h := hall ⟨"1", "get_alpha_vantage_price_snapshot", [("ticker", .str "RELIANCE.BSE")]⟩
      (by simp)
    exact (h.2 rfl).1 (.str "RELIANCE.BSE") rfl rfl
  · have h := hall ⟨"2", "get_unknown_thing", []⟩ (by simp)
    exact h.1 rfl

/-- C6: a sub-tool invocation that throws — including a selected name absent
from the finance tool map — becomes a per-sub-tool error entry with the
caught message, the batch still returns normally, and every selected
sub-tool's entry is present in the merged output. -/
theorem meta_router_error_isolation (router : ModelResponse) (known : List String)
    (invoke : ToolCall → Except String JsonVal) (hne : router.tool_calls ≠ []) :
    ∃ merged urls,
      financialSearchFunc (.ok router) known invoke = .ok (formatToolResult (.obj merged) urls) ∧
      (∀ tc ∈ router.tool_calls, tc.name ∉ known →
        (dispatchSubCall known invoke tc).error = some ("Tool \x27" ++ tc.name ++ "\x27 not found") ∧
        (jsonLookup merged (tc.name ++ "_error")).isSome) ∧
      (∀ tc ∈ router.tool_calls, ∀ e, tc.name ∈ known → invoke tc = .error e →
        (dispatchSubCall known invoke tc).error = some e ∧
        (jsonLookup merged (tc.name ++ "_error")).isSome) ∧
      (∀ tc ∈ router.tool_calls,
        (jsonLookup merged (mergeKey (dispatchSubCall known invoke tc))).isSome) := by
  refine ⟨_, _, financialSearchFunc_dispatch router known invoke hne, ?_, ?_, ?_⟩
  · intro tc htc hunknown
    have herr : (dispatchSubCall known invoke tc).error =
        some ("Tool \x27" ++ tc.name ++ "\x27 not found") := by
      simp [dispatchSubCall, hunknown]
    refine ⟨herr, ?_⟩
    have hkey := mergeResults_mem _ _ (List.mem_map_of_mem (dispatchSubCall known invoke) htc)
    rwa [mergeKey, herr, dispatchSubCall_tool] at hkey
  · intro tc htc e hknown hinv
    have herr : (dispatchSubCall known invoke tc).error = some e := by
      simp [dispatchSubCall, hknown, hinv]
    refine ⟨herr, ?_⟩
    have hkey := mergeResults_mem _ _ (List.mem_map_of_mem (dispatchSubCall known invoke) htc)
    rwa [mergeKey, herr, dispatchSubCall_tool] at hkey
  · intro tc htc
    exact mergeResults_mem _ _ (List.mem_map_of_mem (dispatchSubCall known invoke) htc)

/-- Witness for C6: with one known sub-tool succeeding and one unknown name
throwing, the batch returns normally, the unknown call is recorded as a
`_error` entry, and the successful call's entry is also present. -/
theorem meta_router_error_isolation_witness :
    ∃ merged urls,
      financialSearchFunc
        (.ok ⟨none, [⟨"1", "get_yahoo_news", []⟩, ⟨"2", "nonexistent_tool", []⟩]⟩)
        financeToolNames
        (fun _ => .ok (formatToolResult (.str "news") [])) =
        .ok (formatToolResult (.obj merged) urls) ∧
      (jsonLookup merged ("nonexistent_tool" ++ "_error")).isSome ∧
      (jsonLookup merged (mergeKey (dispatchSubCall financeToolNames
        (fun _ => .ok (formatToolResult (.str "news") []))
        ⟨"1", "get_yahoo_news", []⟩))).isSome := by
  obtain ⟨merged, urls, heq, hunknown, _, hall⟩ :=
    meta_router_error_isolation
      ⟨none, [⟨"1", "get_yahoo_news", []⟩, ⟨"2", "nonexistent_tool", []⟩]⟩
      financeToolNames
      (fun _ => .ok (formatToolResult (.str "news") []))
      (by simp)
  refine ⟨merged, urls, heq, ?_, ?_⟩
  · exact (hunknown ⟨"2", "nonexistent_tool", []⟩ (by simp) (by decide)).2
  · exact hall ⟨"1", "get_yahoo_news", []⟩ (by simp)

/-- Witness for C10: a concrete two-call collision leaves a single merged
entry holding the later value. -/
theorem merge_key_collision_overwrites_witness :
    (mergeResults [⟨"get_stock_price", [("ticker", .str "AAPL")], .num 1, [], none⟩,
                   ⟨"get_stock_price", [("ticker", .str "AAPL")], .num 2, [], none⟩]).1 =
      [("get_stock_price_AAPL", .num 2)] :=
  (merge_key_collision_overwrites "get_stock_price" "AAPL" (by decide)
    (.num 1) (.num 2) [] [] "x" "y" [] []).1

end Dexter
